import Mathlib

/-!
Verification of the contractor_scraper repository against its natural-language
specification.  The React frontend (src/frontend) is embedded directly from the
source; the backend job engine, registry and dedup engine are absent from the
repository snapshot and are modelled from the specification where a claim needs
them (each such definition carries a doc comment starting `Modelled from the
spec:`).
-/

namespace ContractorScraper

/-! ## CSV line parsing (DataTable.jsx, CSVUpload.parseCSVLine, lines 808-826)

The JavaScript scans the line character by character: a double quote toggles the
`inQuotes` flag, a comma outside quotes terminates the current field (pushed
trimmed), and any other character is appended to the current field; a final
trimmed push always happens.  Strings are embedded as `List Char`. -/

/-- JavaScript `String.prototype.trim` removes leading and trailing whitespace;
the whitespace test used here. -/
def isWS (c : Char) : Bool :=
  c == ' ' || c == '\t' || c == '\n' || c == '\r' || c == '\x0b' || c == '\x0c'

/-- JavaScript `current.trim()` on a character-list string: drop whitespace
from the front, then from the back. -/
def trimL (l : List Char) : List Char :=
  ((l.dropWhile isWS).reverse.dropWhile isWS).reverse

/-- The scanning loop of `parseCSVLine`: `current` is the field accumulated so
far, the `Bool` is `inQuotes`. -/
def parseCSVLineGo : List Char → List Char → Bool → List (List Char)
  | [], current, _ => [trimL current]
  | c :: rest, current, inQuotes =>
    if c == '"' then
      parseCSVLineGo rest current (!inQuotes)
    else if c == ',' && !inQuotes then
      trimL current :: parseCSVLineGo rest [] inQuotes
    else
      parseCSVLineGo rest (current ++ [c]) inQuotes

/-- The function `parseCSVLine(line)` from DataTable.jsx. -/
def parseCSVLine (line : List Char) : List (List Char) :=
  parseCSVLineGo line [] false

/-- Number of comma characters of the line that occur outside double-quoted
regions, scanning with the quote parity `inQ` (a character is inside a quoted
region exactly when an odd number of `"` precede it). -/
def commasOutsideQuotes : List Char → Bool → Nat
  | [], _ => 0
  | c :: rest, inQ =>
    if c == '"' then commasOutsideQuotes rest (!inQ)
    else if c == ',' && !inQ then commasOutsideQuotes rest inQ + 1
    else commasOutsideQuotes rest inQ

theorem head_dropWhile_not (p : Char → Bool) (l : List Char) (c : Char)
    (h : (l.dropWhile p).head? = some c) : p c = false := by
  induction l with
  | nil => simp [List.dropWhile] at h
  | cons a t ih =>
    by_cases hp : p a
    · rw [List.dropWhile_cons_of_pos hp] at h
      exact ih h
    · rw [List.dropWhile_cons_of_neg hp] at h
      simp at h
      subst h
      simpa using hp

theorem trimL_subset (l : List Char) : trimL l ⊆ l := by
  intro x hx
  unfold trimL at hx
  have h1 : x ∈ (l.dropWhile isWS).reverse.dropWhile isWS := List.mem_reverse.mp hx
  have h2 : x ∈ (l.dropWhile isWS).reverse := (List.dropWhile_suffix isWS).subset h1
  exact (List.dropWhile_suffix isWS).subset (List.mem_reverse.mp h2)

theorem trimL_head_not_ws (l : List Char) (c : Char)
    (h : (trimL l).head? = some c) : isWS c = false := by
  unfold trimL at h
  rw [List.head?_reverse] at h
  have hsuf : (l.dropWhile isWS).reverse.dropWhile isWS <:+ (l.dropWhile isWS).reverse :=
    List.dropWhile_suffix isWS
  obtain ⟨t, ht⟩ := hsuf
  rcases hB : (l.dropWhile isWS).reverse.dropWhile isWS with _ | ⟨b, B⟩
  · rw [hB] at h; simp at h
  · have hne : (l.dropWhile isWS).reverse.dropWhile isWS ≠ [] := by rw [hB]; simp
    have := List.getLast?_append_of_ne_nil t hne
    rw [ht] at this
    rw [← this, List.getLast?_reverse] at h
    exact head_dropWhile_not isWS l c h

theorem trimL_getLast_not_ws (l : List Char) (c : Char)
    (h : (trimL l).getLast? = some c) : isWS c = false := by
  unfold trimL at h
  rw [List.getLast?_reverse] at h
  exact head_dropWhile_not isWS (l.dropWhile isWS).reverse c h

theorem parseCSVLineGo_length (rest : List Char) : ∀ current inQ,
    (parseCSVLineGo rest current inQ).length = commasOutsideQuotes rest inQ + 1 := by
  induction rest with
  | nil => intro current inQ; simp [parseCSVLineGo, commasOutsideQuotes]
  | cons c t ih =>
    intro current inQ
    by_cases h1 : c == '"'
    · simp [parseCSVLineGo, commasOutsideQuotes, h1, ih]
    · by_cases h2 : c == ',' && !inQ
      · simp [parseCSVLineGo, commasOutsideQuotes, h1, h2, ih]
      · simp [parseCSVLineGo, commasOutsideQuotes, h1, h2, ih]

theorem parseCSVLineGo_mem (rest : List Char) : ∀ current inQ f,
    '"' ∉ current → f ∈ parseCSVLineGo rest current inQ →
    ∃ s : List Char, f = trimL s ∧ '"' ∉ s := by
  induction rest with
  | nil =>
    intro current inQ f hcur hf
    simp [parseCSVLineGo] at hf
    exact ⟨current, hf, hcur⟩
  | cons c t ih =>
    intro current inQ f hcur hf
    by_cases h1 : c == '"'
    · rw [parseCSVLineGo, if_pos h1] at hf
      exact ih current (!inQ) f hcur hf
    · by_cases h2 : c == ',' && !inQ
      · rw [parseCSVLineGo, if_neg (by simpa using h1), if_pos h2] at hf
        rcases List.mem_cons.mp hf with hf | hf
        · exact ⟨current, hf, hcur⟩
        · exact ih [] inQ f (by simp) hf
      · rw [parseCSVLineGo, if_neg (by simpa using h1), if_neg (by simpa using h2)] at hf
        refine ih (current ++ [c]) inQ f ?_ hf
        intro hx
        rcases List.mem_append.mp hx with hx' | hx'
        · exact hcur hx'
        · simp at hx'
          subst hx'
          simp at h1

/-- C9: for every input line, `parseCSVLine` returns a non-empty array whose
length is one plus the number of commas outside double-quoted regions, and
every returned field contains no double quote and starts and ends with a
non-whitespace character (no leading or trailing whitespace). -/
theorem parseCSVLine_spec (line : List Char) :
    parseCSVLine line ≠ [] ∧
    (parseCSVLine line).length = commasOutsideQuotes line false + 1 ∧
    ∀ f ∈ parseCSVLine line, '"' ∉ f ∧
      (∀ c, f.head? = some c → isWS c = false) ∧
      (∀ c, f.getLast? = some c → isWS c = false) := by
  have hlen : (parseCSVLine line).length = commasOutsideQuotes line false + 1 :=
    parseCSVLineGo_length line [] false
  refine ⟨?_, hlen, ?_⟩
  · intro hnil; rw [hnil] at hlen; simp at hlen
  · intro f hf
    obtain ⟨s, hs, hsq⟩ := parseCSVLineGo_mem line [] false f (by simp) hf
    subst hs
    refine ⟨?_, fun c hc => trimL_head_not_ws s c hc,
      fun c hc => trimL_getLast_not_ws s c hc⟩
    intro hq
    exact hsq (trimL_subset s hq)

/-- Witness for `parseCSVLine_spec` on the concrete line `a, b ,"c,d"`. -/
theorem parseCSVLine_spec_witness :
    (['c', ',', 'd'] ∈
        parseCSVLine ['a', ',', ' ', 'b', ' ', ',', '"', 'c', ',', 'd', '"']) ∧
      '"' ∉ (['c', ',', 'd'] : List Char) ∧ isWS 'c' = false ∧ isWS 'd' = false :=
  ⟨by decide,
    ((parseCSVLine_spec ['a', ',', ' ', 'b', ' ', ',', '"', 'c', ',', 'd', '"']).2.2
      ['c', ',', 'd'] (by decide)).1,
    ((parseCSVLine_spec ['a', ',', ' ', 'b', ' ', ',', '"', 'c', ',', 'd', '"']).2.2
      ['c', ',', 'd'] (by decide)).2.1 'c' (by decide),
    ((parseCSVLine_spec ['a', ',', ' ', 'b', ' ', ',', '"', 'c', ',', 'd', '"']).2.2
      ['c', ',', 'd'] (by decide)).2.2 'd' (by decide)⟩

/-! ## CSV import mapping (DataTable.jsx, CSVUpload.getMappedData lines 900-912
and CSVUpload.handleImport lines 914-933)

A parsed CSV row and a mapped contractor record are embedded as association
lists from key to string value; a missing key and an empty (JavaScript-falsy)
value are both represented by the empty string, matching `row[csvHeader]`
being `undefined` or the empty string. -/

/-- Lookup `row[h]` on an association-list row: the value stored under key
`h`, or `""` when the key is absent (JavaScript `undefined`, falsy like the
empty string). -/
def rowGet (row : List (String × String)) (h : String) : String :=
  match row.find? (fun p => p.1 == h) with
  | some p => p.2
  | none => ""

/-- The body of the `map` inside `getMappedData`: build `mappedRow` by
copying, for each `(fieldKey, csvHeader)` entry of the field mapping, the
value the row holds under `csvHeader` — only when `csvHeader` and
`row[csvHeader]` are both truthy. -/
def mapRow (fieldMapping : List (String × String)) (row : List (String × String)) :
    List (String × String) :=
  fieldMapping.foldl
    (fun acc fm =>
      if fm.2 != "" && rowGet row fm.2 != "" then acc ++ [(fm.1, rowGet row fm.2)] else acc)
    []

/-- Function `getMappedData()`: map every CSV row through the field mapping,
then keep only rows with a (truthy) `name`. -/
def getMappedData (fieldMapping : List (String × String))
    (csvData : List (List (String × String))) : List (List (String × String)) :=
  (csvData.map (mapRow fieldMapping)).filter (fun row => rowGet row "name" != "")

/-- The JSON body `handleImport` POSTs to `/api/import-csv`. -/
structure ImportRequest where
  contractors : List (List (String × String))
  enrich_after : Bool
  thread_count : Nat
deriving DecidableEq

/-- Function `handleImport()`: compute the mapped contractors; if the list is
empty set an error result and send no request (`none`), otherwise send
the import request with `enrich_after` and `thread_count: 3`. -/
def handleImport (fieldMapping : List (String × String))
    (csvData : List (List (String × String))) (enrichAfterImport : Bool) :
    Option ImportRequest :=
  let contractors := getMappedData fieldMapping csvData
  if contractors.length = 0 then none
  else some ⟨contractors, enrichAfterImport, 3⟩

/-- C8: every record submitted to the CSV import endpoint has a non-empty
name: `getMappedData` discards mapped rows lacking a name, and `handleImport`
sends no request at all when the record list is empty. -/
theorem csv_import_only_named_records (fieldMapping : List (String × String))
    (csvData : List (List (String × String))) (enrichAfterImport : Bool) :
    (∀ row ∈ getMappedData fieldMapping csvData, rowGet row "name" ≠ "") ∧
    (getMappedData fieldMapping csvData = [] →
      handleImport fieldMapping csvData enrichAfterImport = none) ∧
    (∀ req, handleImport fieldMapping csvData enrichAfterImport = some req →
      req.contractors = getMappedData fieldMapping csvData ∧
      ∀ row ∈ req.contractors, rowGet row "name" ≠ "") := by
  have hmem : ∀ row ∈ getMappedData fieldMapping csvData, rowGet row "name" ≠ "" := by
    intro row hrow
    have := List.of_mem_filter hrow
    simpa using this
  refine ⟨hmem, ?_, ?_⟩
  · intro hempty
    simp [handleImport, hempty]
  · intro req hreq
    unfold handleImport at hreq
    by_cases hlen : (getMappedData fieldMapping csvData).length = 0
    · simp [hlen] at hreq
    · simp [hlen] at hreq
      refine ⟨by rw [← hreq], ?_⟩
      intro row hrow
      rw [← hreq] at hrow
      exact hmem row hrow

/-- Witness for `csv_import_only_named_records` on one concrete CSV data set:
a row mapped with a name is kept and submitted, and the name is non-empty. -/
theorem csv_import_only_named_records_witness :
    (rowGet [("name", "Acme")] "name" ≠ "") ∧
      handleImport [("name", "Business")] [] true = none := by
  refine ⟨?_, ?_⟩
  · exact (csv_import_only_named_records [("name", "Business")]
      [[("Business", "Acme")]] true).1 [("name", "Acme")] (by decide)
  · exact (csv_import_only_named_records [("name", "Business")] [] true).2.1 (by decide)

/-! ## Progress events and the enrichment view
(EnrichmentStatus.jsx, `ws.onmessage` lines 269-296)

A WebSocket message is a JSON object carrying `job_id`, a `type` string and a
type-dependent payload; the handler dispatches on `data.type ∈ {progress,
result, status}`.  JavaScript string statuses are kept as `String`; an absent
or falsy (empty) error message is embedded as the empty string. -/

/-- The payload of an event, one constructor per `data.type` the handler
dispatches on: `progress` carries the counters, `result` carries the outcome
of the last unit (`data.contractor`) together with the counters, `status`
carries a status transition and an optional (possibly empty) error string. -/
inductive EventBody
  | progress (processed enriched failed : Nat)
  | result (contractor : String) (processed enriched failed : Nat)
  | status (status : String) (error : String)
deriving DecidableEq

/-- A progress event: `{job_id, type, payload}`. -/
structure Event where
  job_id : Nat
  body : EventBody
deriving DecidableEq

/-- Field `data.type` of an event. -/
def Event.typeStr (e : Event) : String :=
  match e.body with
  | .progress _ _ _ => "progress"
  | .result _ _ _ _ => "result"
  | .status _ _ => "status"

/-- The view the frontend keeps of one enrichment job (the fields
`ws.onmessage` and the job cards read and write). -/
structure JobView where
  id : Nat
  status : String
  total_records : Nat
  processed : Nat
  enriched : Nat
  failed : Nat
  current_business : String
  error_message : String
deriving DecidableEq

/-- The `setJobs(prevJobs => prevJobs.map(...))` body of `ws.onmessage`: when
the id of the view matches the `job_id` of the event, update the fields that
event type carries; otherwise return the view unchanged.  `if (data.error)`
is the JavaScript truthiness test, i.e. a non-empty error string. -/
def applyEvent (j : JobView) (e : Event) : JobView :=
  if j.id == e.job_id then
    match e.body with
    | .progress p en f => { j with processed := p, enriched := en, failed := f }
    | .result c p en f =>
        { j with current_business := c, enriched := en, failed := f, processed := p }
    | .status s err =>
        { j with status := s,
                 error_message := if err != "" then err else j.error_message }
  else j

/-- The terminal-close test of `ws.onmessage` (line 292): the event type is
`status` and its status is `completed`, `failed` or `cancelled`; when it
holds the handler calls `ws.close()`. -/
def shouldClose (e : Event) : Bool :=
  match e.body with
  | .status s _ => s == "completed" || s == "failed" || s == "cancelled"
  | _ => false

/-- C4: the type of every event is one of `progress`, `result`, `status`; it
carries a `job_id` and a payload; and the handler reads from a `progress`
event exactly the counters, from a `result` event the outcome of the last
unit plus the counters, and from a `status` event the status transition and
the optional error message. -/
theorem event_shape_and_dispatch (j : JobView) (id p en f : Nat)
    (c s err : String) (h : j.id = id) :
    (∀ e : Event, (e.typeStr = "progress" ∨ e.typeStr = "result" ∨ e.typeStr = "status")
      ∧ ∃ n b, e = ⟨n, b⟩) ∧
    applyEvent j ⟨id, .progress p en f⟩
      = { j with processed := p, enriched := en, failed := f } ∧
    applyEvent j ⟨id, .result c p en f⟩
      = { j with current_business := c, enriched := en, failed := f, processed := p } ∧
    applyEvent j ⟨id, .status s err⟩
      = { j with status := s,
                 error_message := if err != "" then err else j.error_message } := by
  refine ⟨?_, ?_, ?_, ?_⟩
  · intro e
    refine ⟨?_, e.job_id, e.body, rfl⟩
    rcases e with ⟨n, b⟩
    cases b <;> simp [Event.typeStr]
  · simp [applyEvent, h]
  · simp [applyEvent, h]
  · simp [applyEvent, h]

/-- Witness for `event_shape_and_dispatch` on a concrete job view and event. -/
theorem event_shape_and_dispatch_witness :
    applyEvent ⟨7, "running", 10, 1, 1, 0, "", ""⟩ ⟨7, .progress 2 1 1⟩
      = ⟨7, "running", 10, 2, 1, 1, "", ""⟩ :=
  (event_shape_and_dispatch ⟨7, "running", 10, 1, 1, 0, "", ""⟩ 7 2 1 1 "x" "s" ""
    rfl).2.1

/-! ## Event stream termination (claim C3)

The subscriber side is embedded from `ws.onmessage` (EnrichmentStatus.jsx
lines 292-296): on a `status` event carrying `completed`/`failed`/`cancelled`
the handler closes the socket and stops listening.  The producing side — the
Event Bus of the backend — is absent from the repository snapshot and is
modelled from the spec. -/

/-- Modelled from the spec: the per-subscriber bounded delivery buffer of the
Event Bus (the backend implementation is not in the snapshot).  Publishing
into a full buffer drops the oldest undelivered event and continues; a terminal
`status` event (`completed`/`failed`/`cancelled`) is delivered with a blocking
guarantee and is never dropped, so it is always appended. -/
def busDeliver (cap : Nat) (buffer : List Event) (e : Event) : List Event :=
  if shouldClose e then buffer ++ [e]
  else if buffer.length < cap then buffer ++ [e]
  else buffer.tail ++ [e]

/-- Modelled from the spec: the stream a subscriber sees after the producer
published `es` in order, starting from an empty buffer. -/
def deliverAll (cap : Nat) (es : List Event) : List Event :=
  es.foldl (busDeliver cap) []

/-- The listening loop of a subscriber: process delivered events in order and
stop (close the stream) at the first terminal `status` event; returns whether
the stream was closed. -/
def subscriberClosed : List Event → Bool
  | [] => false
  | e :: rest => if shouldClose e then true else subscriberClosed rest

theorem busDeliver_getLast (cap : Nat) (buffer : List Event) (e : Event) :
    (busDeliver cap buffer e).getLast? = some e := by
  unfold busDeliver
  split
  · simp
  · split <;> simp

theorem subscriberClosed_of_mem (es : List Event) (e : Event)
    (he : e ∈ es) (hterm : shouldClose e = true) : subscriberClosed es = true := by
  induction es with
  | nil => simp at he
  | cons a rest ih =>
    rcases List.mem_cons.mp he with h | h
    · subst h; simp [subscriberClosed, hterm]
    · by_cases ha : shouldClose a
      · simp [subscriberClosed, ha]
      · simp [subscriberClosed, ha]; exact ih h

/-- C3: when the job reaches a terminal state, the final `status` event
carrying `completed`/`failed`/`cancelled` is never dropped by the bus — it is
in the delivered stream, as its last event — and upon receiving it the
subscriber stops listening and the stream closes. -/
theorem terminal_event_closes_stream (cap : Nat) (es : List Event) (e : Event)
    (hterm : shouldClose e = true) :
    e ∈ deliverAll cap (es ++ [e]) ∧
    (deliverAll cap (es ++ [e])).getLast? = some e ∧
    subscriberClosed (deliverAll cap (es ++ [e])) = true := by
  have hlast : (deliverAll cap (es ++ [e])).getLast? = some e := by
    unfold deliverAll
    rw [List.foldl_append]
    exact busDeliver_getLast cap _ e
  have hmem : e ∈ deliverAll cap (es ++ [e]) := by
    rcases hd : deliverAll cap (es ++ [e]) with _ | ⟨a, t⟩
    · rw [hd] at hlast; simp at hlast
    · rw [hd] at hlast
      rw [List.getLast?_eq_getLast _ (by simp)] at hlast
      have := List.getLast_mem (l := a :: t) (by simp)
      rw [Option.some_inj.mp hlast] at this
      exact this
  exact ⟨hmem, hlast, subscriberClosed_of_mem _ e hmem hterm⟩

/-- Witness for `terminal_event_closes_stream`: a completed-status event after
two progress events on a buffer of capacity 1. -/
theorem terminal_event_closes_stream_witness :
    (⟨4, .status "completed" ""⟩ : Event) ∈
      deliverAll 1 ([⟨4, .progress 1 1 0⟩, ⟨4, .progress 2 2 0⟩]
        ++ [⟨4, .status "completed" ""⟩]) ∧
    subscriberClosed (deliverAll 1 ([⟨4, .progress 1 1 0⟩, ⟨4, .progress 2 2 0⟩]
        ++ [⟨4, .status "completed" ""⟩])) = true :=
  ⟨(terminal_event_closes_stream 1 [⟨4, .progress 1 1 0⟩, ⟨4, .progress 2 2 0⟩]
      ⟨4, .status "completed" ""⟩ (by decide)).1,
   (terminal_event_closes_stream 1 [⟨4, .progress 1 1 0⟩, ⟨4, .progress 2 2 0⟩]
      ⟨4, .status "completed" ""⟩ (by decide)).2.2⟩

/-! ## WebSocket connection registry (claim C10)
(EnrichmentStatus.jsx, the `useEffect` on `jobs`, lines 260-305)

`wsConnections.current` is a plain object keyed by job id; it is embedded as
the list of job ids that currently hold a live connection.  The effect filters
the jobs to running status and, for each, opens a connection only when
`!wsConnections.current[job.id]`; `ws.onclose` deletes the entry of the id. -/

/-- One pass of the WebSocket management effect over the jobs list: for each
job with running status whose id has no registered connection, open a
socket and register it.  The check is against the registry as already extended
during the same pass, as in the JavaScript `forEach`. -/
def effectStep (registry : List Nat) (jobs : List JobView) : List Nat :=
  jobs.foldl
    (fun reg j =>
      if j.status == "running" && !(reg.contains j.id) then reg ++ [j.id] else reg)
    registry

/-- Handler `ws.onclose`: `delete wsConnections.current[job.id]` — the
registry entry for the id is removed. -/
def closeStep (registry : List Nat) (id : Nat) : List Nat :=
  registry.filter (fun x => x != id)

/-- An observable action on the connection registry: a run of the management
effect with the current jobs list, or a socket for an id closing. -/
inductive WsAction
  | effect (jobs : List JobView)
  | close (id : Nat)

/-- The registry after a sequence of actions, starting from the empty
registry of a fresh mount. -/
def runWs (actions : List WsAction) : List Nat :=
  actions.foldl
    (fun reg a =>
      match a with
      | .effect jobs => effectStep reg jobs
      | .close id => closeStep reg id)
    []

theorem effectStep_nodup (jobs : List JobView) :
    ∀ registry : List Nat, registry.Nodup → (effectStep registry jobs).Nodup := by
  induction jobs with
  | nil => intro registry h; simpa [effectStep] using h
  | cons j rest ih =>
    intro registry h
    rw [effectStep, List.foldl_cons]
    by_cases hc : j.status == "running" && !(registry.contains j.id)
    · rw [if_pos hc]
      refine ih (registry ++ [j.id]) ?_
      rw [List.nodup_append]
      refine ⟨h, List.nodup_singleton _, ?_⟩
      intro x hx hx'
      simp at hx'
      subst hx'
      simp at hc
      exact hc.2 hx
    · rw [if_neg hc]
      exact ih registry h

theorem effectStep_mem (jobs : List JobView) :
    ∀ registry : List Nat, ∀ id : Nat, id ∈ effectStep registry jobs →
      id ∈ registry ∨ ∃ j ∈ jobs, j.id = id ∧ j.status = "running" := by
  induction jobs with
  | nil => intro registry id h; exact Or.inl (by simpa [effectStep] using h)
  | cons j rest ih =>
    intro registry id h
    rw [effectStep, List.foldl_cons] at h
    by_cases hc : j.status == "running" && !(registry.contains j.id)
    · rw [if_pos hc] at h
      rcases ih (registry ++ [j.id]) id h with h' | ⟨j', hj', hid, hst⟩
      · rcases List.mem_append.mp h' with h'' | h''
        · exact Or.inl h''
        · simp at h''
          subst h''
          refine Or.inr ⟨j, List.mem_cons_self j rest, rfl, ?_⟩
          have := (Bool.and_eq_true _ _).mp hc
          simpa using this.1
      · exact Or.inr ⟨j', List.mem_cons_of_mem j hj', hid, hst⟩
    · rw [if_neg hc] at h
      rcases ih registry id h with h' | ⟨j', hj', hid, hst⟩
      · exact Or.inl h'
      · exact Or.inr ⟨j', List.mem_cons_of_mem j hj', hid, hst⟩

theorem runWs_nodup (actions : List WsAction) : (runWs actions).Nodup := by
  suffices h : ∀ reg : List Nat, reg.Nodup →
      (actions.foldl
        (fun reg a =>
          match a with
          | .effect jobs => effectStep reg jobs
          | .close id => closeStep reg id)
        reg).Nodup by
    exact h [] List.nodup_nil
  induction actions with
  | nil => intro reg hreg; simpa using hreg
  | cons a rest ih =>
    intro reg hreg
    rw [List.foldl_cons]
    cases a with
    | effect jobs => exact ih _ (effectStep_nodup jobs reg hreg)
    | close id => exact ih _ (List.Nodup.filter _ hreg)

/-- C10: the enrichment view keeps at most one live WebSocket connection per
job id — along any sequence of effect runs and socket closes the registry
never holds an id twice; a connection is opened only for a job whose status is
`running` and only when no connection for that id is already registered; and
the registry entry for an id is gone once its socket closes. -/
theorem ws_registry_at_most_one (actions : List WsAction)
    (registry : List Nat) (jobs : List JobView) (id : Nat)
    (hnew : id ∈ effectStep registry jobs) (hold : id ∉ registry) :
    (runWs actions).Nodup ∧
    (∃ j ∈ jobs, j.id = id ∧ j.status = "running") ∧
    id ∉ closeStep registry id := by
  refine ⟨runWs_nodup actions, ?_, ?_⟩
  · rcases effectStep_mem jobs registry id hnew with h | h
    · exact absurd h hold
    · exact h
  · intro hmem
    have := List.of_mem_filter hmem
    simp at this

/-- Witness for `ws_registry_at_most_one`: one running job, an empty registry,
one effect run followed by a close. -/
theorem ws_registry_at_most_one_witness :
    (runWs [.effect [⟨5, "running", 10, 0, 0, 0, "", ""⟩], .close 5]).Nodup ∧
    (∃ j ∈ [(⟨5, "running", 10, 0, 0, 0, "", ""⟩ : JobView)],
      j.id = 5 ∧ j.status = "running") ∧
    (5 : Nat) ∉ closeStep [] 5 :=
  ws_registry_at_most_one [.effect [⟨5, "running", 10, 0, 0, 0, "", ""⟩], .close 5]
    [] [⟨5, "running", 10, 0, 0, 0, "", ""⟩] 5 (by decide) (by decide)

/-! ## Job counters (claim C1)

The backend job engine (the Python backend referenced by start.sh) is absent
from the repository snapshot; the counter discipline is modelled from the
spec: each finished unit of work increments `processed` and exactly one of
`succeeded`/`failed`; `total_units` is fixed once the unit list is
materialized and the pool processes each of the `total_units` units at most
once. -/

/-- Modelled from the spec: the mutable counters of one job. -/
structure JobCounters where
  total_units : Nat
  processed : Nat
  succeeded : Nat
  failed : Nat
deriving DecidableEq

/-- Modelled from the spec: the task function of a unit returns
`(outcome, error)`; only success or failure is visible to the counters. -/
inductive UnitOutcome
  | success
  | failure
deriving DecidableEq

/-- Modelled from the spec: after a worker finishes one unit the job
increments `processed` and exactly one of `succeeded`/`failed`. -/
def applyOutcome (s : JobCounters) (o : UnitOutcome) : JobCounters :=
  match o with
  | .success => { s with processed := s.processed + 1, succeeded := s.succeeded + 1 }
  | .failure => { s with processed := s.processed + 1, failed := s.failed + 1 }

/-- Modelled from the spec: a job starts with all counters at zero. -/
def initCounters (total : Nat) : JobCounters := ⟨total, 0, 0, 0⟩

/-- The snapshot an observer takes after the first `k` unit completions of a
job whose completed units, in completion order, are `outcomes`. -/
def snapshotAt (total : Nat) (outcomes : List UnitOutcome) (k : Nat) : JobCounters :=
  (outcomes.take k).foldl applyOutcome (initCounters total)

theorem foldl_applyOutcome_total (l : List UnitOutcome) :
    ∀ s : JobCounters, (l.foldl applyOutcome s).total_units = s.total_units := by
  induction l with
  | nil => intro s; simp
  | cons o t ih =>
    intro s
    rw [List.foldl_cons, ih]
    cases o <;> rfl

theorem foldl_applyOutcome_processed (l : List UnitOutcome) :
    ∀ s : JobCounters, (l.foldl applyOutcome s).processed = s.processed + l.length := by
  induction l with
  | nil => intro s; simp
  | cons o t ih =>
    intro s
    rw [List.foldl_cons, ih]
    cases o <;> simp [applyOutcome] <;> omega

theorem foldl_applyOutcome_sum (l : List UnitOutcome) :
    ∀ s : JobCounters,
      (l.foldl applyOutcome s).succeeded + (l.foldl applyOutcome s).failed
        = s.succeeded + s.failed + l.length := by
  induction l with
  | nil => intro s; simp
  | cons o t ih =>
    intro s
    rw [List.foldl_cons, ih]
    cases o <;> simp [applyOutcome] <;> omega

theorem foldl_applyOutcome_succeeded_le (l : List UnitOutcome) :
    ∀ s : JobCounters, s.succeeded ≤ (l.foldl applyOutcome s).succeeded := by
  induction l with
  | nil => intro s; simp
  | cons o t ih =>
    intro s
    rw [List.foldl_cons]
    refine le_trans ?_ (ih (applyOutcome s o))
    cases o <;> simp [applyOutcome]

theorem foldl_applyOutcome_failed_le (l : List UnitOutcome) :
    ∀ s : JobCounters, s.failed ≤ (l.foldl applyOutcome s).failed := by
  induction l with
  | nil => intro s; simp
  | cons o t ih =>
    intro s
    rw [List.foldl_cons]
    refine le_trans ?_ (ih (applyOutcome s o))
    cases o <;> simp [applyOutcome]

/-- C1: at every observed snapshot of a job, `processed = succeeded + failed`
and `processed ≤ total_units`, and `processed`, `succeeded` and `failed` are
monotonically non-decreasing over the lifetime of the job. -/
theorem job_counters_invariant (total : Nat) (outcomes : List UnitOutcome)
    (hlen : outcomes.length ≤ total) (k k' : Nat) (hk : k ≤ k') :
    (snapshotAt total outcomes k).processed
        = (snapshotAt total outcomes k).succeeded + (snapshotAt total outcomes k).failed ∧
    (snapshotAt total outcomes k).processed ≤ (snapshotAt total outcomes k).total_units ∧
    (snapshotAt total outcomes k).processed ≤ (snapshotAt total outcomes k').processed ∧
    (snapshotAt total outcomes k).succeeded ≤ (snapshotAt total outcomes k').succeeded ∧
    (snapshotAt total outcomes k).failed ≤ (snapshotAt total outcomes k').failed := by
  have htake : (outcomes.take k).length ≤ total := by
    rw [List.length_take]
    omega
  have hsplit : outcomes.take k' = outcomes.take k ++ (outcomes.drop k).take (k' - k) := by
    rw [← List.take_add]
    congr 1
    omega
  have hk'eq : snapshotAt total outcomes k'
      = ((outcomes.drop k).take (k' - k)).foldl applyOutcome
          ((outcomes.take k).foldl applyOutcome (initCounters total)) := by
    unfold snapshotAt
    rw [hsplit, List.foldl_append]
  refine ⟨?_, ?_, ?_, ?_, ?_⟩
  · unfold snapshotAt
    rw [foldl_applyOutcome_processed]
    have := foldl_applyOutcome_sum (outcomes.take k) (initCounters total)
    simp [initCounters] at this ⊢
    omega
  · unfold snapshotAt
    rw [foldl_applyOutcome_processed, foldl_applyOutcome_total]
    simp [initCounters, List.length_take]
    omega
  · rw [hk'eq]
    unfold snapshotAt
    have h1 := foldl_applyOutcome_processed ((outcomes.drop k).take (k' - k))
      ((outcomes.take k).foldl applyOutcome (initCounters total))
    omega
  · rw [hk'eq]
    unfold snapshotAt
    exact foldl_applyOutcome_succeeded_le _ _
  · rw [hk'eq]
    unfold snapshotAt
    exact foldl_applyOutcome_failed_le _ _

/-- Witness for `job_counters_invariant`: a job of 3 units, two completed
(one success, one failure), snapshots after 1 and 2 completions. -/
theorem job_counters_invariant_witness :
    (snapshotAt 3 [.success, .failure] 1).processed
        = (snapshotAt 3 [.success, .failure] 1).succeeded
          + (snapshotAt 3 [.success, .failure] 1).failed ∧
    (snapshotAt 3 [.success, .failure] 1).processed
        ≤ (snapshotAt 3 [.success, .failure] 1).total_units ∧
    (snapshotAt 3 [.success, .failure] 1).processed
        ≤ (snapshotAt 3 [.success, .failure] 2).processed ∧
    (snapshotAt 3 [.success, .failure] 1).succeeded
        ≤ (snapshotAt 3 [.success, .failure] 2).succeeded ∧
    (snapshotAt 3 [.success, .failure] 1).failed
        ≤ (snapshotAt 3 [.success, .failure] 2).failed :=
  job_counters_invariant 3 [.success, .failure] (by decide) 1 2 (by decide)

/-! ## Job state machine and terminal transitions (claim C2)

The backend registry is absent from the repository snapshot; the transition
discipline is modelled from the spec (§4.3, §4.4): string statuses are the
closed enumeration `{pending, running, completed, failed, cancelled}`, the
three terminal states are absorbing, and `completed_at` is set exactly once,
on the terminal transition. -/

/-- Modelled from the spec: the closed job status enumeration. -/
inductive JobStatus
  | pending
  | running
  | completed
  | failed
  | cancelled
deriving DecidableEq

/-- A status is terminal when it is `completed`, `failed` or `cancelled`. -/
def JobStatus.isTerminal : JobStatus → Bool
  | .completed => true
  | .failed => true
  | .cancelled => true
  | _ => false

/-- Modelled from the spec: the authoritative job record held by the
registry (the fields the transition logic touches). -/
structure JobRecord where
  status : JobStatus
  error_message : Option String
  created_at : Nat
  completed_at : Option Nat
deriving DecidableEq

/-- Modelled from the spec: a transition request against a job. -/
inductive TransitionReq
  | start
  | complete
  | fail (msg : String)
  | cancel
deriving DecidableEq

/-- Modelled from the spec: the transition logic of the registry.  A request on an
already-terminal job is a no-op returning the existing snapshot; a terminal
transition sets `completed_at` (to the current time `now`) and, for `fail`,
the error message. -/
def applyTransition (now : Nat) (j : JobRecord) (t : TransitionReq) : JobRecord :=
  if j.status.isTerminal then j
  else
    match t with
    | .start => { j with status := .running }
    | .complete => { j with status := .completed, completed_at := some now }
    | .fail msg =>
        { j with status := .failed, error_message := some msg, completed_at := some now }
    | .cancel => { j with status := .cancelled, completed_at := some now }

/-- The job-record invariant: `completed_at` is set exactly when the job is in
a terminal state. -/
def JobWF (j : JobRecord) : Prop :=
  j.completed_at.isSome = true ↔ j.status.isTerminal = true

/-- C2: terminal states are absorbing — any transition request on a terminal
job (in particular a repeated cancel) is a no-op returning the existing
snapshot; the invariant tying `completed_at` to terminality is preserved;
`completed_at`, once set, is never mutated again; and it is set (to the
transition time) exactly on the terminal transition. -/
theorem terminal_transitions_absorbing (now : Nat) (j : JobRecord)
    (t : TransitionReq) (hwf : JobWF j) :
    (j.status.isTerminal = true → applyTransition now j t = j) ∧
    JobWF (applyTransition now j t) ∧
    (∀ ts, j.completed_at = some ts → (applyTransition now j t).completed_at = some ts) ∧
    (j.status.isTerminal = false → (applyTransition now j t).status.isTerminal = true →
      (applyTransition now j t).completed_at = some now) := by
  refine ⟨?_, ?_, ?_, ?_⟩
  · intro hterm
    simp [applyTransition, hterm]
  · by_cases hterm : j.status.isTerminal
    · simpa [applyTransition, hterm] using hwf
    · have hnone : j.completed_at = none := by
        cases hca : j.completed_at with
        | none => rfl
        | some ts =>
          exact absurd (hwf.mp (by rw [hca]; rfl)) hterm
      simp only [applyTransition, hterm, if_false, Bool.false_eq_true]
      cases t <;> simp [JobWF, JobStatus.isTerminal, hnone]
  · intro ts hts
    by_cases hterm : j.status.isTerminal
    · simp [applyTransition, hterm, hts]
    · exact absurd (hwf.mp (by simp [hts])) hterm
  · intro hnt hterm'
    simp only [applyTransition, hnt, if_false, Bool.false_eq_true] at hterm' ⊢
    cases t <;> simp_all [JobStatus.isTerminal]

/-- Witness for `terminal_transitions_absorbing`: a completed job receiving a
repeated cancel request keeps its snapshot and its `completed_at`. -/
theorem terminal_transitions_absorbing_witness :
    applyTransition 99 ⟨.completed, none, 5, some 7⟩ .cancel
        = ⟨.completed, none, 5, some 7⟩ ∧
    (applyTransition 99 ⟨.completed, none, 5, some 7⟩ .cancel).completed_at = some 7 :=
  ⟨(terminal_transitions_absorbing 99 ⟨.completed, none, 5, some 7⟩ .cancel
      (by simp [JobWF, JobStatus.isTerminal])).1 rfl,
   (terminal_transitions_absorbing 99 ⟨.completed, none, 5, some 7⟩ .cancel
      (by simp [JobWF, JobStatus.isTerminal])).2.2.1 7 rfl⟩

/-! ## Dedup / Cleanup engine (claims C5, C6)

The persistent record store and the dedup engine are absent from the
repository snapshot; they are modelled from the spec (§3, §4.5).  The frontend
side of the location cleanup (`handleCleanupByState`, DataTable.jsx lines
182-202, and the disabled button at lines 410-417) is embedded from the
source. -/

/-- A contractor record, with the fields of the fixed export column order. -/
structure ContractorRecord where
  name : String
  owner_name : String
  category : String
  phone : String
  email : String
  address : String
  city : String
  state : String
  zip_code : String
  website : String
  linkedin : String
deriving DecidableEq

/-- Modelled from the spec: phone normalization for the identity key (digits
only). -/
def normalizePhone (s : String) : String :=
  (s.toList.filter Char.isDigit).asString

/-- Modelled from the spec: address normalization for the identity key
(case-insensitive). -/
def normalizeAddress (s : String) : String :=
  (s.toList.map Char.toUpper).asString

/-- Modelled from the spec: state normalization for the location cleanup
(the frontend uppercases state input). -/
def normalizeState (s : String) : String :=
  (s.toList.map Char.toUpper).asString

/-- Modelled from the spec: the identity key
`(name, normalized phone, normalized address)`. -/
def identityKey (r : ContractorRecord) : String × String × String :=
  (r.name, normalizePhone r.phone, normalizeAddress r.address)

/-- Function `handleCleanupByState` (DataTable.jsx lines 182-202): when `keepStates`
is empty it alerts and returns without issuing any request; otherwise it
POSTs `/api/cleanup-location` with the keep states as query parameters.  The
returned value is the request sent, `none` when no request is issued. -/
def handleCleanupByState (keepStates : List String) : Option (List String) :=
  if keepStates.length = 0 then none else some keepStates

/-- Modelled from the spec: `CleanupByKeptLocations(keepSet)` — an empty
`keepSet` is rejected as an input-validation error (nothing is deleted);
otherwise every record whose normalized state is not in `keepSet` is deleted
and the number of removed records is returned. -/
def cleanupByKeptLocations (keepSet : List String) (store : List ContractorRecord) :
    Except String (List ContractorRecord × Nat) :=
  if keepSet.isEmpty then
    Except.error "keep set must not be empty"
  else
    let kept := store.filter (fun r => keepSet.contains (normalizeState r.state))
    Except.ok (kept, store.length - kept.length)

/-- C5: with an empty keep-set the cleanup is rejected — the frontend sends no
request at all and the engine returns a validation error, removing no record —
while with a non-empty keep-set it returns exactly the records whose
normalized state is in the keep-set, untouched and in order (a sublist of the
store), and deletes exactly the others. -/
theorem cleanup_by_kept_locations_spec (keepSet : List String)
    (store : List ContractorRecord) (hne : keepSet ≠ []) :
    handleCleanupByState [] = none ∧
    (∀ res, cleanupByKeptLocations [] store ≠ Except.ok res) ∧
    (∃ kept removed,
      cleanupByKeptLocations keepSet store = Except.ok (kept, removed) ∧
      kept.Sublist store ∧
      (∀ r ∈ store, keepSet.contains (normalizeState r.state) = true → r ∈ kept) ∧
      (∀ r ∈ kept, keepSet.contains (normalizeState r.state) = true) ∧
      removed = store.length - kept.length) := by
  refine ⟨rfl, ?_, ?_⟩
  · intro res h
    simp [cleanupByKeptLocations] at h
  · refine ⟨store.filter (fun r => keepSet.contains (normalizeState r.state)),
      store.length
        - (store.filter (fun r => keepSet.contains (normalizeState r.state))).length,
      ?_, List.filter_sublist store, ?_, ?_, rfl⟩
    · rw [cleanupByKeptLocations, if_neg (by simpa using hne)]
    · intro r hr hkeep
      exact List.mem_filter.mpr ⟨hr, hkeep⟩
    · intro r hr
      exact (List.mem_filter.mp hr).2

/-- Witness for `cleanup_by_kept_locations_spec`: the test case named by the
spec — a store with a WV and a VA record, keep-set `["WV"]` — the WV record
is kept and the VA record is not. -/
theorem cleanup_by_kept_locations_spec_witness :
    handleCleanupByState [] = none ∧
    ∃ kept removed,
      cleanupByKeptLocations ["WV"]
          [⟨"a", "", "", "", "", "", "", "WV", "", "", ""⟩,
           ⟨"b", "", "", "", "", "", "", "VA", "", "", ""⟩] = Except.ok (kept, removed) ∧
      (⟨"a", "", "", "", "", "", "", "WV", "", "", ""⟩ : ContractorRecord) ∈ kept ∧
      (⟨"b", "", "", "", "", "", "", "VA", "", "", ""⟩ : ContractorRecord) ∉ kept := by
  obtain ⟨h1, _, kept, removed, hok, _, hmem, hall, _⟩ :=
    cleanup_by_kept_locations_spec ["WV"]
      [⟨"a", "", "", "", "", "", "", "WV", "", "", ""⟩,
       ⟨"b", "", "", "", "", "", "", "VA", "", "", ""⟩] (by decide)
  refine ⟨h1, kept, removed, hok, hmem _ (by simp) (by decide), ?_⟩
  intro hb
  have hcontains := hall _ hb
  revert hcontains
  decide

/-- Modelled from the spec: per-field merge policy — never overwrite a
non-empty field with an empty one; when both are non-empty the incoming
(last-written) value wins. -/
def mergeField (existing incoming : String) : String :=
  if incoming == "" then existing else incoming

/-- Modelled from the spec: merge the non-empty fields of the incoming record
into the existing one, field by field. -/
def mergeRecord (e i : ContractorRecord) : ContractorRecord where
  name := mergeField e.name i.name
  owner_name := mergeField e.owner_name i.owner_name
  category := mergeField e.category i.category
  phone := mergeField e.phone i.phone
  email := mergeField e.email i.email
  address := mergeField e.address i.address
  city := mergeField e.city i.city
  state := mergeField e.state i.state
  zip_code := mergeField e.zip_code i.zip_code
  website := mergeField e.website i.website
  linkedin := mergeField e.linkedin i.linkedin

/-- Modelled from the spec: `MergeOrInsert(record)` — look up by identity
key; if found, merge the incoming record into the existing one (no new row),
otherwise insert it; returns the new store and whether a new row was
inserted. -/
def mergeOrInsert (store : List ContractorRecord) (r : ContractorRecord) :
    List ContractorRecord × Bool :=
  if store.any (fun e => decide (identityKey e = identityKey r)) then
    (store.map (fun e => if identityKey e = identityKey r then mergeRecord e r else e),
      false)
  else
    (store ++ [r], true)

theorem mergeField_absorb (a b : String) : mergeField (mergeField a b) b = mergeField a b := by
  unfold mergeField
  by_cases h : b == ""
  · simp [h]
  · simp [h]

theorem mergeRecord_absorb (e r : ContractorRecord) :
    mergeRecord (mergeRecord e r) r = mergeRecord e r := by
  unfold mergeRecord
  simp [mergeField_absorb]

theorem mergeRecord_self (r : ContractorRecord) : mergeRecord r r = r := by
  have h : ∀ a : String, mergeField a a = a := by
    intro a
    unfold mergeField
    by_cases h : a == ""
    · simp at h; simp [h]
    · simp [h]
  unfold mergeRecord
  simp [h]

theorem mergeRecord_key (e r : ContractorRecord) (h : identityKey e = identityKey r) :
    identityKey (mergeRecord e r) = identityKey r := by
  unfold identityKey at h ⊢
  simp only [Prod.mk.injEq] at h
  obtain ⟨hn, hp, ha⟩ := h
  unfold mergeRecord mergeField
  simp only
  refine Prod.ext ?_ (Prod.ext ?_ ?_) <;> simp only
  · by_cases hb : r.name == ""
    · simp [hb]
      simp at hb
      rw [hn, hb]
    · simp [hb]
  · by_cases hb : r.phone == ""
    · simp [hb, hp]
    · simp [hb]
  · by_cases hb : r.address == ""
    · simp [hb, ha]
    · simp [hb]

theorem mergeField_preserves (a b : String) (h : b = "") : mergeField a b = a := by
  simp [mergeField, h]

/-- C6: `MergeOrInsert` is idempotent — inserting the same record a second
time changes nothing, whatever the record, so starting from an empty store
two inserts of the same record leave exactly one stored record — and merging
never overwrites a non-empty field of the existing record with an empty field
of the incoming record: for every one of the eleven fields, an empty incoming
value leaves the existing value in place (in particular a non-empty existing
`owner_name` survives an incoming record with an empty `owner_name`), and the
merged row (not a new one) is what the store holds after the merge. -/
theorem mergeOrInsert_idempotent_preserving (store : List ContractorRecord)
    (e r : ContractorRecord) :
    (mergeOrInsert (mergeOrInsert store r).fst r).fst = (mergeOrInsert store r).fst ∧
    (mergeOrInsert (mergeOrInsert [] r).fst r).fst.length = 1 ∧
    (r.name = "" → (mergeRecord e r).name = e.name) ∧
    (r.owner_name = "" → (mergeRecord e r).owner_name = e.owner_name) ∧
    (r.category = "" → (mergeRecord e r).category = e.category) ∧
    (r.phone = "" → (mergeRecord e r).phone = e.phone) ∧
    (r.email = "" → (mergeRecord e r).email = e.email) ∧
    (r.address = "" → (mergeRecord e r).address = e.address) ∧
    (r.city = "" → (mergeRecord e r).city = e.city) ∧
    (r.state = "" → (mergeRecord e r).state = e.state) ∧
    (r.zip_code = "" → (mergeRecord e r).zip_code = e.zip_code) ∧
    (r.website = "" → (mergeRecord e r).website = e.website) ∧
    (r.linkedin = "" → (mergeRecord e r).linkedin = e.linkedin) ∧
    (e ∈ store → identityKey e = identityKey r →
      mergeRecord e r ∈ (mergeOrInsert store r).fst) := by
  have hidem : ∀ s : List ContractorRecord,
      (mergeOrInsert (mergeOrInsert s r).fst r).fst = (mergeOrInsert s r).fst := by
    intro s
    by_cases hmatch : s.any (fun e => decide (identityKey e = identityKey r))
    · have hinner : (mergeOrInsert s r).fst
          = s.map (fun x => if identityKey x = identityKey r then mergeRecord x r else x) := by
        rw [mergeOrInsert, if_pos hmatch]
      obtain ⟨e₀, he₀, hk₀⟩ := List.any_eq_true.mp hmatch
      simp only [decide_eq_true_eq] at hk₀
      have hmatch2 : (s.map (fun x =>
          if identityKey x = identityKey r then mergeRecord x r else x)).any
            (fun x => decide (identityKey x = identityKey r)) = true := by
        rw [List.any_eq_true]
        refine ⟨mergeRecord e₀ r, ?_, by simp [mergeRecord_key e₀ r hk₀]⟩
        rw [List.mem_map]
        exact ⟨e₀, he₀, by rw [if_pos hk₀]⟩
      rw [hinner, mergeOrInsert, if_pos hmatch2]
      simp only [Prod.fst]
      rw [List.map_map]
      apply List.map_congr_left
      intro x _
      simp only [Function.comp]
      by_cases hx : identityKey x = identityKey r
      · rw [if_pos hx, if_pos (mergeRecord_key x r hx), mergeRecord_absorb]
      · rw [if_neg hx, if_neg hx]
    · have hinner : (mergeOrInsert s r).fst = s ++ [r] := by
        rw [mergeOrInsert, if_neg hmatch]
      have hmatch2 : ((s ++ [r]).any
          (fun x => decide (identityKey x = identityKey r))) = true := by
        rw [List.any_eq_true]
        exact ⟨r, by simp, by simp⟩
      rw [hinner, mergeOrInsert, if_pos hmatch2]
      simp only [Prod.fst]
      have : ∀ x ∈ s ++ [r],
          (if identityKey x = identityKey r then mergeRecord x r else x) = x := by
        intro x hx
        rcases List.mem_append.mp hx with hx' | hx'
        · rw [if_neg]
          intro hk
          exact (List.any_eq_true.not.mp hmatch) ⟨x, hx', by simp [hk]⟩
        · simp at hx'
          subst hx'
          rw [if_pos rfl, mergeRecord_self]
      rw [List.map_congr_left this]
      simp
  refine ⟨hidem store, ?_,
    fun h => mergeField_preserves e.name r.name h,
    fun h => mergeField_preserves e.owner_name r.owner_name h,
    fun h => mergeField_preserves e.category r.category h,
    fun h => mergeField_preserves e.phone r.phone h,
    fun h => mergeField_preserves e.email r.email h,
    fun h => mergeField_preserves e.address r.address h,
    fun h => mergeField_preserves e.city r.city h,
    fun h => mergeField_preserves e.state r.state h,
    fun h => mergeField_preserves e.zip_code r.zip_code h,
    fun h => mergeField_preserves e.website r.website h,
    fun h => mergeField_preserves e.linkedin r.linkedin h, ?_⟩
  · rw [hidem []]
    rw [mergeOrInsert, if_neg (by simp)]
    simp
  · intro he hk
    rw [mergeOrInsert, if_pos (List.any_eq_true.mpr ⟨e, he, by simp [hk]⟩)]
    simp only [Prod.fst]
    rw [List.mem_map]
    exact ⟨e, he, by rw [if_pos hk]⟩

/-- Witness for `mergeOrInsert_idempotent_preserving`: two inserts of one
concrete record carrying a non-empty `owner_name` into an empty store leave
exactly one stored record, and a merge with an empty incoming `owner_name`
keeps the existing owner. -/
theorem mergeOrInsert_idempotent_preserving_witness :
    (mergeOrInsert
        (mergeOrInsert []
          ⟨"Acme", "Bo", "", "555", "", "1 Main St", "", "WV", "", "", ""⟩).fst
        ⟨"Acme", "Bo", "", "555", "", "1 Main St", "", "WV", "", "", ""⟩).fst.length = 1 ∧
    (mergeRecord ⟨"Acme", "Jo", "", "555", "", "1 Main St", "", "WV", "", "", ""⟩
        ⟨"Acme", "", "", "555", "", "1 Main St", "", "WV", "", "", ""⟩).owner_name
      = "Jo" :=
  ⟨(mergeOrInsert_idempotent_preserving []
      ⟨"Acme", "Jo", "", "555", "", "1 Main St", "", "WV", "", "", ""⟩
      ⟨"Acme", "Bo", "", "555", "", "1 Main St", "", "WV", "", "", ""⟩).2.1,
   (mergeOrInsert_idempotent_preserving []
      ⟨"Acme", "Jo", "", "555", "", "1 Main St", "", "WV", "", "", ""⟩
      ⟨"Acme", "", "", "555", "", "1 Main St", "", "WV", "", "", ""⟩).2.2.2.1 rfl⟩

/-! ## Requested concurrency (claim C7)

The three job-creation requests the client issues are embedded from the
source: `handleStartJob` (App.jsx lines 116-131, default parameter
`threadCount = 3`), `handleStartEnrichment` (EnrichmentStatus.jsx lines
311-337, literal `thread_count: 3`), and `CSVUpload.handleImport`
(DataTable.jsx lines 925-933, literal `thread_count: 3`, already embedded as
`handleImport`).  The backend validation of the requested concurrency is
absent from the snapshot and is modelled from the spec (clamped to
`[1, MAX_CONCURRENCY]`, default 3). -/

/-- The JSON body that `handleStartJob` POSTs to `/api/jobs`. -/
structure ScrapeJobRequest where
  location : String
  categories : List String
  thread_count : Nat
deriving DecidableEq

/-- Function `handleStartJob(location, selectedCategories, threadCount = 3)`:
an absent (`undefined`) argument takes the default-parameter value 3. -/
def handleStartJobBody (location : String) (selectedCategories : List String)
    (threadCount : Option Nat) : ScrapeJobRequest :=
  ⟨location, selectedCategories, threadCount.getD 3⟩

/-- The filter state of the enrichment start form. -/
structure EnrichFilter where
  category : String
  state : String
  limit : Nat
  only_missing : Bool
deriving DecidableEq

/-- The JSON body that `handleStartEnrichment` POSTs to `/api/enrich`:
`category: filter.category || null`, `state: filter.state || null`,
`limit`, `thread_count: 3`, `only_missing`. -/
structure EnrichRequest where
  category : Option String
  state : Option String
  limit : Nat
  thread_count : Nat
  only_missing : Bool
deriving DecidableEq

/-- The request built by `handleStartEnrichment` from the filter state. -/
def enrichRequestBody (f : EnrichFilter) : EnrichRequest :=
  ⟨if f.category != "" then some f.category else none,
   if f.state != "" then some f.state else none,
   f.limit, 3, f.only_missing⟩

/-- Modelled from the spec: the backend validation of the requested
concurrency — an absent value defaults to 3; the result is clamped to
`[1, MAX_CONCURRENCY]`. -/
def clampConcurrency (maxConcurrency : Nat) (requested : Option Nat) : Nat :=
  min (max (requested.getD 3) 1) maxConcurrency

/-- C7: a job created without an explicit concurrency requests concurrency 3;
the validated concurrency always lies in `[1, MAX_CONCURRENCY]` (and a
defaulted request clamps to 3 whenever the maximum allows it); and every
job-creation request issued by the client — scrape, enrich and CSV import —
carries `thread_count` 3 by default. -/
theorem concurrency_default_and_clamp (maxC : Nat) (hmax : 1 ≤ maxC)
    (l : String) (cats : List String) (f : EnrichFilter)
    (fm : List (String × String)) (data : List (List (String × String)))
    (ea : Bool) (c : Option Nat) :
    (handleStartJobBody l cats none).thread_count = 3 ∧
    (enrichRequestBody f).thread_count = 3 ∧
    (∀ req, handleImport fm data ea = some req → req.thread_count = 3) ∧
    1 ≤ clampConcurrency maxC c ∧
    clampConcurrency maxC c ≤ maxC ∧
    (3 ≤ maxC → clampConcurrency maxC none = 3) := by
  refine ⟨rfl, rfl, ?_, ?_, ?_, ?_⟩
  · intro req hreq
    rw [handleImport] at hreq
    by_cases hlen : (getMappedData fm data).length = 0
    · simp [hlen] at hreq
    · simp [hlen] at hreq
      rw [← hreq]
  · unfold clampConcurrency
    omega
  · unfold clampConcurrency
    omega
  · intro h3
    unfold clampConcurrency
    simp
    omega

/-- Witness for `concurrency_default_and_clamp` at `MAX_CONCURRENCY = 5`. -/
theorem concurrency_default_and_clamp_witness :
    (handleStartJobBody "WV" ["plumber"] none).thread_count = 3 ∧
    clampConcurrency 5 (some 99) ≤ 5 ∧
    clampConcurrency 5 none = 3 :=
  ⟨(concurrency_default_and_clamp 5 (by decide) "WV" ["plumber"] ⟨"", "", 50, true⟩
      [] [] true (some 99)).1,
   (concurrency_default_and_clamp 5 (by decide) "WV" ["plumber"] ⟨"", "", 50, true⟩
      [] [] true (some 99)).2.2.2.2.1,
   (concurrency_default_and_clamp 5 (by decide) "WV" ["plumber"] ⟨"", "", 50, true⟩
      [] [] true (some 99)).2.2.2.2.2 (by decide)⟩

end ContractorScraper
